import Mathlib

/-!
Verification of mini-fintickstreams against its specification.

Each section shallowly embeds one component of the Rust source:

* endpoint template rendering        (src/ingest/spec/template.rs)
* accelerator health evaluator/gate  (src/redis/health/evaluator.rs, src/redis/gate.rs)
* batched writer and retry wrapper   (src/db/writer.rs)
* stream-registry restart loading    (src/db/writer.rs)
* publish-latency p99 tracker        (src/redis/latency.rs)
* push-feed reconnect loop           (src/ingest/ws/ws_client.rs)

Strings are modelled as lists of characters (Rust byte indices returned by
find are always on the boundaries the code slices at, so character indexing
is behaviourally equivalent).  f64 values that the code only ever compares
and sorts are modelled as rationals: every finite double is a rational and
the code rejects non-finite samples before storing them.  Loops whose
termination depends on runtime data take an explicit fuel argument and
return none when the fuel runs out, modelling divergence.
-/

namespace MiniFintick

/-! ## Endpoint template rendering (src/ingest/spec/template.rs) -/

/-- Character-list model of a Rust String slice. -/
abbrev Str := List Char

/-- Lookup in the rendering context; models BTreeMap.get on Ctx =
BTreeMap of String to String (src/ingest/spec/types.rs line 7). -/
abbrev Ctx := Str → Option Str

/-- Index of the first occurrence of a character in a list. -/
def findAt (c : Char) : Str → Option Nat
  | [] => none
  | x :: xs => if x = c then some 0 else (findAt c xs).map (· + 1)

/-- Model of out[i..].find(c) translated to an absolute index:
the first position at or after i holding character c. -/
def findFrom (c : Char) (l : Str) (i : Nat) : Option Nat :=
  (findAt c (l.drop i)).map (i + ·)

/-- Slice l[a..b] (half-open), as used for the key between the brackets. -/
def strSlice (l : Str) (a b : Nat) : Str :=
  (l.drop a).take (b - a)

/-- Lexicographic strict order on character lists, mirroring the order of
String in Rust (byte order; on the slices compared here, char order). -/
def strLt : Str → Str → Bool
  | [], [] => false
  | [], _ :: _ => true
  | _ :: _, [] => false
  | a :: as, b :: bs => if a < b then true else if b < a then false else strLt as bs

/-- Insertion into a sorted duplicate-free list; models BTreeSet.insert
for the set of missing keys in render_string. -/
def insertSorted (k : Str) : List Str → List Str
  | [] => [k]
  | x :: xs =>
    if strLt k x then k :: x :: xs
    else if k = x then x :: xs
    else x :: insertSorted k xs

/-- Core scan loop of render_string (src/ingest/spec/template.rs lines
23-43).  State is the scan position i, the working string out and the
accumulated set of missing keys.  Replacing a bound key rescans from the
replacement start; a missing key is recorded and the scan skips past its
closing bracket; an unclosed opening bracket stops the scan.  The fuel
models the possibility that the Rust loop never terminates (a binding can
reproduce its own placeholder); none means the fuel ran out. -/
def renderCore (ctx : Ctx) : Nat → Nat → Str → List Str → Option (Str × List Str)
  | 0, _, _, _ => none
  | fuel + 1, i, out, miss =>
    match findFrom '<' out i with
    | none => some (out, miss)
    | some start =>
      match findFrom '>' out start with
      | none => some (out, miss)
      | some stop =>
        let key := strSlice out (start + 1) stop
        match ctx key with
        | some val =>
          renderCore ctx fuel start (out.take start ++ val ++ out.drop (stop + 1)) miss
        | none =>
          renderCore ctx fuel (stop + 1) out (insertSorted key miss)

/-- Model of render_string (src/ingest/spec/template.rs lines 10-53).
The error value is the sorted set of missing keys; the source wraps the
same set, joined with commas, in AppError.InvalidConfig. -/
def renderString (fuel : Nat) (input : Str) (ctx : Ctx) : Option (Except (List Str) Str) :=
  if '<' ∈ input then
    match renderCore ctx fuel 0 input [] with
    | none => none
    | some (out, miss) =>
      if miss = [] then some (.ok out) else some (.error miss)
  else some (.ok input)

/-! ## Accelerator health types (src/redis/health/types.rs) -/

/-- Reason Redis was (or should be) disabled (src/redis/health/types.rs
lines 8-15). -/
inductive DisableReason
  | down
  | maxMemory
  | maxPending
  | latency
  | manual
  | saturated
deriving DecidableEq, Repr

/-- Raw measurements about Redis at a point in time
(src/redis/health/types.rs lines 35-76).  Optional f64 measurements are
modelled as optional rationals; the timestamp field carries no behaviour
and is left out. -/
structure RedisSnapshot where
  is_up : Bool
  ping_rtt_ms : Option ℚ
  used_memory_bytes : Option Nat
  maxmemory_bytes : Option Nat
  used_memory_pct : Option ℚ
  pending_total : Option Nat
  p99_cmd_ms : Option ℚ
deriving DecidableEq, Repr

/-- Evaluated health status (src/redis/health/types.rs lines 92-96). -/
structure HealthStatus where
  ok : Bool
  reason : Option DisableReason
  snapshot : RedisSnapshot
deriving DecidableEq, Repr

/-- Constructor HealthStatus.healthy (src/redis/health/types.rs). -/
def HealthStatus.healthy (snapshot : RedisSnapshot) : HealthStatus :=
  { ok := true, reason := none, snapshot := snapshot }

/-- Constructor HealthStatus.unhealthy (src/redis/health/types.rs). -/
def HealthStatus.unhealthy (reason : DisableReason) (snapshot : RedisSnapshot) : HealthStatus :=
  { ok := false, reason := some reason, snapshot := snapshot }

/-- Modelled from the spec: CapacityConfig of the accelerator config
(src/redis/config.rs is not under src/); field names and integer kinds
are fixed by the evaluator, the gate tests and spec section 6. -/
structure CapacityConfig where
  poll_interval_sec : Nat
  max_memory_pct : Nat
  max_pending : Nat
  max_p99_cmd_ms : Nat
  redis_publish_latency_window : Nat
deriving DecidableEq, Repr

/-- Modelled from the spec: DownPolicy variants; both arms of the match
in src/redis/gate.rs lines 98-106 name them. -/
inductive DownPolicy
  | disableRedisTemporarily
  | pauseAndRetry
deriving DecidableEq, Repr

/-- Modelled from the spec: SaturationPolicy variants; the three arms of
the match in src/redis/gate.rs lines 140-171 name them. -/
inductive SaturationPolicy
  | stopAssigningNew
  | errorNew
  | spilloverToOtherNode
deriving DecidableEq, Repr

/-- Modelled from the spec: FailoverConfig of the accelerator config
(src/redis/config.rs is not under src/); the gate reads exactly these two
fields. -/
structure FailoverConfig where
  on_down : DownPolicy
  on_saturated : SaturationPolicy
deriving DecidableEq, Repr

/-! ## Health evaluator (src/redis/health/evaluator.rs) -/

/-- Model of HealthEvaluator.evaluate (src/redis/health/evaluator.rs
lines 25-53): connectivity, then memory, then pending backlog, then p99
latency; an unknown (None) measurement never triggers its rule. -/
def evaluate (cap : CapacityConfig) (s : RedisSnapshot) : HealthStatus :=
  if !s.is_up then .unhealthy .down s
  else if s.used_memory_pct.any (fun pct => pct > (cap.max_memory_pct : ℚ)) then
    .unhealthy .maxMemory s
  else if s.pending_total.any (fun p => p > cap.max_pending) then
    .unhealthy .maxPending s
  else if s.p99_cmd_ms.any (fun p99 => p99 > (cap.max_p99_cmd_ms : ℚ)) then
    .unhealthy .latency s
  else .healthy s

/-! ## Accelerator gate (src/redis/gate.rs) -/

/-- State of RedisGate (src/redis/gate.rs lines 19-31): the two atomics
and the last disable reason; metrics are pure observation and are left
out. -/
structure GateState where
  enabled : Bool
  stop_assigning_new : Bool
  last_disable : Option DisableReason
deriving DecidableEq, Repr

/-- Model of RedisGate.new (src/redis/gate.rs lines 34-44). -/
def GateState.new : GateState :=
  { enabled := true, stop_assigning_new := false, last_disable := none }

/-- Model of RedisGate.can_publish (src/redis/gate.rs lines 61-63). -/
def canPublish (s : GateState) : Bool :=
  s.enabled

/-- Model of RedisGate.can_assign_new_symbol (src/redis/gate.rs lines
71-73). -/
def canAssignNewSymbol (s : GateState) : Bool :=
  s.enabled && !s.stop_assigning_new

/-- Model of RedisGate.set_disabled (src/redis/gate.rs lines 174-185). -/
def setDisabled (s : GateState) (reason : Option DisableReason) : GateState :=
  { s with enabled := false, stop_assigning_new := true, last_disable := reason }

/-- Model of RedisGate.apply_saturation (src/redis/gate.rs lines
139-172): every saturation policy stops assigning new symbols and leaves
the enabled flag untouched (the differences are metric labels and future
behaviour). -/
def applySaturation (cfg : FailoverConfig) (s : GateState) (_reason : DisableReason) : GateState :=
  match cfg.on_saturated with
  | .stopAssigningNew => { s with stop_assigning_new := true }
  | .errorNew => { s with stop_assigning_new := true }
  | .spilloverToOtherNode => { s with stop_assigning_new := true }

/-- Model of RedisGate.apply_health (src/redis/gate.rs lines 83-137). -/
def applyHealth (cfg : FailoverConfig) (s : GateState) (st : HealthStatus) : GateState :=
  if st.ok then
    { enabled := true, stop_assigning_new := false, last_disable := none }
  else
    match st.reason with
    | some .down =>
      match cfg.on_down with
      | .disableRedisTemporarily => setDisabled s (some .down)
      | .pauseAndRetry => setDisabled s (some .down)
    | some .maxMemory => applySaturation cfg s .maxMemory
    | some .maxPending => applySaturation cfg s .maxPending
    | some .latency => setDisabled s (some .latency)
    | some .saturated => applySaturation cfg s .saturated
    | some .manual => setDisabled s (some .manual)
    | none => setDisabled s (some .down)

/-! ## Batched writer (src/db/writer.rs) -/

/-- Counters of DbMetrics touched by write_batch and its retry wrapper;
histogram observations (queue wait, pool wait, latencies) are pure
observation and are left out. -/
structure DbMetrics where
  failed_batch : Nat
  batches_written : Nat
  rows_written : Nat
  retried_batch : Nat
deriving DecidableEq, Repr

/-- Modelled from the spec: the Batch type of src/db (re-exported by
src/db/mod.rs from a file that is not under src/).  Spec section 3 gives
its shape: rows, an enqueued_at timestamp (modelled as a Nat instant) and
the flush knobs read by write_batch (batch.rows, batch.enqueued_at,
batch.chunk_rows; the batch key only routes I/O and is left out). -/
structure Batch (α : Type) where
  rows : List α
  enqueued_at : Nat
  flush_rows : Nat
  flush_interval_ms : Nat
  chunk_rows : Nat
deriving DecidableEq, Repr

/-- Modelled from the spec: Batch.should_flush, called by write_batch at
src/db/writer.rs line 64 but defined in the missing Batch file.  Spec
section 4.7: write when rows.len ≥ flush_rows or the flush interval has
elapsed since enqueued_at, and empty batches always return Ok without
work; the write_batch doc comment (src/db/writer.rs lines 59-62) states
the same three cases. -/
def Batch.should_flush {α : Type} (b : Batch α) (now : Nat) : Bool :=
  !b.rows.isEmpty &&
    (decide (b.flush_rows ≤ b.rows.length) ||
      decide (b.flush_interval_ms ≤ now - b.enqueued_at))

/-- Rust slice chunks with positive chunk size, via structural fuel
(fuel l.length suffices since every step drops at least one element). -/
def chunksGo {α : Type} : Nat → Nat → List α → List (List α)
  | 0, _, _ => []
  | _, _, [] => []
  | fuel + 1, n, l@(_ :: _) => l.take n :: chunksGo fuel n (l.drop n)

/-- Model of batch.rows.chunks(batch.chunk_rows) used at
src/db/writer.rs line 124.  Rust panics on chunk size 0; the Batch
invariant (spec section 3) keeps chunk_rows positive, and theorems carry
that hypothesis. -/
def chunksOf {α : Type} (n : Nat) (l : List α) : List (List α) :=
  chunksGo l.length n l

/-- First store error over the chunk sequence, indexing chunks from i:
models the execute-and-abort-on-first-error loop of src/db/writer.rs
lines 124-155.  The oracle insert gives the store outcome of the i-th
chunk INSERT of this call. -/
def firstErr {α ε : Type} (insert : Nat → Option ε) : Nat → List (List α) → Option ε
  | _, [] => none
  | i, _ :: cs =>
    match insert i with
    | some e => some e
    | none => firstErr insert (i + 1) cs

/-- Model of DbHandler.write_batch (src/db/writer.rs lines 63-172).
Inputs: the store oracle for this call, the current instant, the metric
counters and the batch.  Routing, semaphore and pool acquisition are
modelled as succeeding (their failures return early touching neither the
batch nor the counters tracked here).  The none result models the panic
of the batch.rows[0] table-name read (line 120) on an empty rows vector;
otherwise the call returns the store outcome with the updated counters
and batch exactly as the source does: on any chunk error, failed_batch
is incremented and the batch is untouched; on success batches_written
and rows_written are bumped, rows are cleared and enqueued_at is reset
to the time of the call. -/
def writeBatch {α ε : Type} (insert : Nat → Option ε) (now : Nat)
    (m : DbMetrics) (b : Batch α) : Option (Except ε Unit × DbMetrics × Batch α) :=
  if !b.should_flush now then some (.ok (), m, b)
  else
    match b.rows with
    | [] => none
    | _ :: _ =>
      let chunks := chunksOf b.chunk_rows b.rows
      match firstErr insert 0 chunks with
      | some e => some (.error e, { m with failed_batch := m.failed_batch + 1 }, b)
      | none =>
        some (.ok (),
          { m with
            batches_written := m.batches_written + 1,
            rows_written := m.rows_written + (chunks.map List.length).sum },
          { b with rows := [], enqueued_at := now })

/-- Loop of DbHandler.write_batch_with_retry (src/db/writer.rs lines
184-197), with left = retries - attempt remaining retries.  The store
oracle is indexed by attempt then chunk; the fixed-backoff sleep between
attempts is a real-time effect with no further state. -/
def retryGo {α ε : Type} (insert : Nat → Nat → Option ε) (now : Nat) :
    Nat → Nat → DbMetrics → Batch α → Option (Except ε Unit × DbMetrics × Batch α)
  | attempt, left, m, b =>
    match writeBatch (insert attempt) now m b with
    | none => none
    | some (.ok u, m1, b1) => some (.ok u, m1, b1)
    | some (.error e, m1, b1) =>
      match left with
      | 0 => some (.error e, m1, b1)
      | left + 1 =>
        retryGo insert now (attempt + 1) left
          { m1 with retried_batch := m1.retried_batch + 1 } b1

/-- Model of DbHandler.write_batch_with_retry (src/db/writer.rs lines
178-198). -/
def writeBatchWithRetry {α ε : Type} (insert : Nat → Nat → Option ε) (now : Nat)
    (retries : Nat) (m : DbMetrics) (b : Batch α) :
    Option (Except ε Unit × DbMetrics × Batch α) :=
  retryGo insert now 0 retries m b

/-! ## Stream registry restart loading (src/db/writer.rs lines 402-461) -/

/-- Registry row pulled by load_enabled_streams_from_registry (stream_id,
exchange, instrument, kind, transport, already filtered on enabled).  The
app module carrying ExchangeId, StreamTransport and StreamKind is not
under src/; the sort comparator casts each to its u8 discriminant, so the
decoded enums are modelled as naturals and the instrument as a string.
Rows are modelled post-decode: a from_str failure aborts the whole load
with an error and yields no list at all. -/
structure RegRow where
  stream_id : String
  exchange : Nat
  transport : Nat
  kind : Nat
  symbol : String
deriving DecidableEq, Repr

/-- StartStreamParams as pushed at src/db/writer.rs lines 441-446. -/
structure StartStreamParams where
  exchange : Nat
  transport : Nat
  kind : Nat
  symbol : String
deriving DecidableEq, Repr

/-- Conversion of a registry row to StartStreamParams (src/db/writer.rs
lines 441-446). -/
def RegRow.toParams (r : RegRow) : StartStreamParams :=
  { exchange := r.exchange, transport := r.transport, kind := r.kind, symbol := r.symbol }

/-- Inner row loop of load_enabled_streams_from_registry
(src/db/writer.rs lines 425-447): skip a stream_id already in the seen
set, otherwise keep the row and record its id.  Returns the kept rows and
the grown seen set. -/
def selectGo (seen : List String) : List RegRow → List RegRow × List String
  | [] => ([], seen)
  | r :: rs =>
    if r.stream_id ∈ seen then selectGo seen rs
    else
      let (out, seen1) := selectGo (r.stream_id :: seen) rs
      (r :: out, seen1)

/-- Outer shard loop of load_enabled_streams_from_registry
(src/db/writer.rs lines 409-448): one seen set shared across shards. -/
def selectShardsGo (seen : List String) : List (List RegRow) → List RegRow
  | [] => []
  | sh :: shs =>
    let (out, seen1) := selectGo seen sh
    out ++ selectShardsGo seen1 shs

/-- Rows load_enabled_streams_from_registry keeps, before sorting. -/
def selectRows (shards : List (List RegRow)) : List RegRow :=
  selectShardsGo [] shards

/-- Keep the first row of every stream_id, stated the way the spec reads
(spec sections 4.8 and 9: deduplicate by stream_id, first encountered row
wins); the refinement theorem for the loader compares the source loop
against this description. -/
def dedupKeepFirst : List RegRow → List RegRow
  | [] => []
  | r :: rs => r :: dedupKeepFirst (rs.filter (fun x => x.stream_id ≠ r.stream_id))
termination_by l => l.length
decreasing_by
  simpa using Nat.lt_succ_of_le (List.length_filter_le _ _)

/-- Comparator of the final sort (src/db/writer.rs lines 451-458): Rust
tuple order on (exchange as u8, transport as u8, kind as u8, symbol). -/
def paramLe (a b : StartStreamParams) : Bool :=
  if a.exchange ≠ b.exchange then decide (a.exchange < b.exchange)
  else if a.transport ≠ b.transport then decide (a.transport < b.transport)
  else if a.kind ≠ b.kind then decide (a.kind < b.kind)
  else decide (a.symbol ≤ b.symbol)

/-- Ordering relation of the final sort, as a proposition. -/
def ParamOrder (a b : StartStreamParams) : Prop :=
  paramLe a b = true

instance : DecidableRel ParamOrder := fun a b => by
  unfold ParamOrder; infer_instance

/-- Model of load_enabled_streams_from_registry (src/db/writer.rs lines
402-461): scan the shards deduplicating by stream_id, convert to start
parameters, then sort by (exchange, transport, kind, symbol).  Rust
Vec.sort_by is a stable sort; insertion sort is stable for the same
comparator. -/
def loadEnabled (shards : List (List RegRow)) : List StartStreamParams :=
  List.insertionSort ParamOrder ((selectRows shards).map RegRow.toParams)

/-! ## Publish latency tracker (src/redis/latency.rs) -/

/-- State of RedisPublishLatency (src/redis/latency.rs lines 19-25): ring
buffer of the last cap samples in milliseconds, modelled over ℚ (the
tracker stores only finite doubles). -/
structure LatInner where
  buf : List ℚ
  cap : Nat
  len : Nat
  idx : Nat
deriving DecidableEq, Repr

/-- Model of RedisPublishLatency.new (src/redis/latency.rs lines 37-48);
the source asserts window_samples > 0. -/
def latencyNew (window_samples : Nat) : LatInner :=
  { buf := List.replicate window_samples 0, cap := window_samples, len := 0, idx := 0 }

/-- Model of RedisPublishLatency.observe_ms (src/redis/latency.rs lines
54-73); the non-finite rejection has no counterpart over ℚ, the negative
rejection is kept. -/
def observeMs (s : LatInner) (ms : ℚ) : LatInner :=
  if ms < 0 then s
  else
    { s with
      buf := s.buf.set s.idx ms,
      idx := (s.idx + 1) % s.cap,
      len := if s.len < s.cap then s.len + 1 else s.len }

/-- Model of RedisPublishLatency.clear (src/redis/latency.rs lines
121-131): zero the buffer, reset len and idx. -/
def latencyClear (s : LatInner) : LatInner :=
  { s with buf := s.buf.map (fun _ => 0), len := 0, idx := 0 }

/-- Model of RedisPublishLatency.p99_ms (src/redis/latency.rs lines
78-104): snapshot the populated prefix, sort ascending, take index
ceil(0.99 n) - 1 clamped into [0, n-1].  The 0.99 factor is computed
exactly over ℚ; the partial_cmp sort is the total ascending order since
only finite samples are stored.  The getD default is unreachable for the
well-formed states the tracker produces (len ≤ buf length). -/
def p99Ms (s : LatInner) : Option ℚ :=
  if s.len = 0 then none
  else
    let snap := List.insertionSort (· ≤ ·) (s.buf.take s.len)
    let n := snap.length
    let i0 : Int := ⌈(99 * (n : ℚ)) / 100⌉ - 1
    let i1 : Int := if i0 < 0 then 0 else i0
    some (snap.getD (min i1.toNat (n - 1)) 0)

/-! ## Push-feed reconnect loop (src/ingest/ws/ws_client.rs) -/

/-- End of one established session in the read loop of connect_loop
(src/ingest/ws/ws_client.rs lines 121-181): either a disconnect that
breaks the inner loop with a close reason (read error, stream end, close
frame, connection timeout) or a fatal error propagating out of the loop
(an on_event failure, a send failure). -/
inductive SessionEnd
  | disconnect (reason : Option String)
  | fatal (e : String)
deriving DecidableEq, Repr

/-- Outcome of one connection attempt: connect_async fails (the error the
source maps to AppError.Internal at lines 95-97), or a session is
established and later ends. -/
inductive AttemptOutcome
  | connectErr (e : String)
  | session (outcome : SessionEnd)
deriving DecidableEq, Repr

/-- Model of WsClient.connect_loop (src/ingest/ws/ws_client.rs lines
67-197).  The environment gives the outcome of each attempt; maxAttempts
models WsTestHook.max_reconnect_attempts with k attempts made so far
(none in production); the limiter wait is a pure delay.  Fuel bounds the
number of iterations the model can observe: none means the loop was still
running.  A connect error returns Except.error by the question-mark
operator on connect_async; a session fatal error propagates likewise; a
disconnect reaches the bottom of the loop body and reconnects. -/
def connectLoop (env : Nat → AttemptOutcome) (maxAttempts : Option Nat) :
    Nat → Nat → Option (Except String Unit)
  | 0, _ => none
  | fuel + 1, k =>
    if (match maxAttempts with
        | some mx => decide (k + 1 ≤ mx)
        | none => true) then
      match env k with
      | .connectErr e => some (.error e)
      | .session (.fatal e) => some (.error e)
      | .session (.disconnect _) => connectLoop env maxAttempts fuel (k + 1)
    else some (.ok ())

/-- Model of WsClient.run_stream (src/ingest/ws/ws_client.rs lines
38-65): seed the context, resolve the control messages (failures there
precede the loop and are outside these claims) and enter connect_loop. -/
def runStream (env : Nat → AttemptOutcome) (maxAttempts : Option Nat)
    (fuel : Nat) : Option (Except String Unit) :=
  connectLoop env maxAttempts fuel 0

/-! ## Spec-side reference definitions and concrete fixtures -/

/-- Placeholder keys of a string as the spec reads them: scan the input
itself left to right, taking each bracketed segment as a key, with no
substitution.  Used to compare the spec words "missing placeholder keys
present in the input" against what render_string actually reports.  Fuel
bounds the scan; each step moves past a closing bracket. -/
def scanKeys : Nat → Str → Nat → List Str
  | 0, _, _ => []
  | fuel + 1, l, i =>
    match findFrom '<' l i with
    | none => []
    | some start =>
      match findFrom '>' l start with
      | none => []
      | some stop => strSlice l (start + 1) stop :: scanKeys fuel l (stop + 1)

/-- Context binding symbol to btcusdt (spec scenario S6). -/
def ctxSymbolFix : Ctx :=
  fun k => if k = "symbol".data then some "btcusdt".data else none

/-- Empty context (spec scenario S6). -/
def ctxEmptyFix : Ctx := fun _ => none

/-- Context whose binding inserts a bare opening bracket. -/
def ctxLtFix : Ctx :=
  fun k => if k = "a".data then some "<".data else none

/-- Failover configuration of the gate tests (src/redis/gate.rs lines
195-204): disable on down, stop assigning new on saturation. -/
def gateCfgFix : FailoverConfig :=
  { on_down := .disableRedisTemporarily, on_saturated := .stopAssigningNew }

/-- Capacity thresholds of the evaluator tests
(src/redis/health/evaluator.rs lines 61-69): pending threshold 200000. -/
def capFix : CapacityConfig :=
  { poll_interval_sec := 2, max_memory_pct := 85, max_pending := 200000,
    max_p99_cmd_ms := 10, redis_publish_latency_window := 2048 }

/-- Saturated snapshot of spec scenario S5: up, memory and latency fine,
pending 300000 over the 200000 threshold. -/
def snapSatFix : RedisSnapshot :=
  { is_up := true, ping_rtt_ms := some 1, used_memory_bytes := some 100,
    maxmemory_bytes := some 1000, used_memory_pct := some 10,
    pending_total := some 300000, p99_cmd_ms := some 1 }

/-- Healthy snapshot below every threshold. -/
def snapHealthyFix : RedisSnapshot :=
  { is_up := true, ping_rtt_ms := some 1, used_memory_bytes := some 100,
    maxmemory_bytes := some 1000, used_memory_pct := some 10,
    pending_total := some 0, p99_cmd_ms := some 1 }

/-- Snapshot of an unreachable accelerator. -/
def snapDownFix : RedisSnapshot :=
  { is_up := false, ping_rtt_ms := none, used_memory_bytes := none,
    maxmemory_bytes := none, used_memory_pct := none,
    pending_total := none, p99_cmd_ms := none }

/-- Zeroed metric counters. -/
def mFix : DbMetrics :=
  { failed_batch := 0, batches_written := 0, rows_written := 0, retried_batch := 0 }

/-- Empty batch with flush_rows 3, interval 100, chunk_rows 2. -/
def bEmptyFix : Batch Nat :=
  { rows := [], enqueued_at := 0, flush_rows := 3, flush_interval_ms := 100, chunk_rows := 2 }

/-- Three-row batch at the flush_rows threshold (spec scenario S3 knobs:
flush_rows 3, chunk_rows 2). -/
def bFix : Batch Nat :=
  { rows := [10, 20, 30], enqueued_at := 0, flush_rows := 3,
    flush_interval_ms := 10000, chunk_rows := 2 }

/-- Store oracle of spec scenario S4: the first chunk of the first
attempt fails transiently, everything afterwards succeeds. -/
def insRetryFix : Nat → Nat → Option String :=
  fun attempt chunk => if attempt = 0 && chunk = 0 then some "transient" else none

/-- Store oracle with every chunk insert succeeding. -/
def insOkFix : Nat → Option String := fun _ => none

/-- Store oracle whose first chunk insert fails. -/
def insFailFix : Nat → Option String :=
  fun chunk => if chunk = 0 then some "disk full" else none

/-- Push-feed environment whose first connection attempt fails at
connect_async and whose later attempts would be clean sessions. -/
def envConnFailFix : Nat → AttemptOutcome :=
  fun n => if n = 0 then .connectErr "connect refused" else .session (.disconnect none)

/-- Push-feed environment of sessions that always end in a disconnect
(read error, stream end or close frame). -/
def envCleanFix : Nat → AttemptOutcome :=
  fun _ => .session (.disconnect none)

/-- Latency tracker state holding the three samples 5, 3 and 9 in a
window of four. -/
def latFix : LatInner :=
  { buf := [5, 3, 9, 0], cap := 4, len := 3, idx := 3 }

/-! ## Theorems -/

/-- C8: HealthEvaluator.evaluate applies its rules in priority order with
first match winning: not up gives Down; else a known memory percentage
above threshold gives MaxMemory; else a known pending total above
threshold gives MaxPending; else a known p99 above threshold gives
Latency; else healthy — and a None measurement never triggers its own
rule. -/
theorem evaluate_priority_first_match (cap : CapacityConfig) (s : RedisSnapshot) :
    (s.is_up = false → evaluate cap s = .unhealthy .down s) ∧
    (s.is_up = true →
      ∀ pct, s.used_memory_pct = some pct → (cap.max_memory_pct : ℚ) < pct →
        evaluate cap s = .unhealthy .maxMemory s) ∧
    (s.is_up = true →
      (∀ pct, s.used_memory_pct = some pct → pct ≤ (cap.max_memory_pct : ℚ)) →
      ∀ p, s.pending_total = some p → cap.max_pending < p →
        evaluate cap s = .unhealthy .maxPending s) ∧
    (s.is_up = true →
      (∀ pct, s.used_memory_pct = some pct → pct ≤ (cap.max_memory_pct : ℚ)) →
      (∀ p, s.pending_total = some p → p ≤ cap.max_pending) →
      ∀ q, s.p99_cmd_ms = some q → (cap.max_p99_cmd_ms : ℚ) < q →
        evaluate cap s = .unhealthy .latency s) ∧
    (s.is_up = true →
      (∀ pct, s.used_memory_pct = some pct → pct ≤ (cap.max_memory_pct : ℚ)) →
      (∀ p, s.pending_total = some p → p ≤ cap.max_pending) →
      (∀ q, s.p99_cmd_ms = some q → q ≤ (cap.max_p99_cmd_ms : ℚ)) →
        evaluate cap s = .healthy s) ∧
    (s.used_memory_pct = none → (evaluate cap s).reason ≠ some .maxMemory) ∧
    (s.pending_total = none → (evaluate cap s).reason ≠ some .maxPending) ∧
    (s.p99_cmd_ms = none → (evaluate cap s).reason ≠ some .latency) := by
  have hmem2 : ∀ (hmem : ∀ pct, s.used_memory_pct = some pct → pct ≤ (cap.max_memory_pct : ℚ)),
      s.used_memory_pct.any (fun pct => decide ((cap.max_memory_pct : ℚ) < pct)) = false := by
    intro hmem
    rcases hopt : s.used_memory_pct with _ | pct
    · rfl
    · simpa [Option.any] using not_lt.mpr (hmem pct hopt)
  have hpend2 : ∀ (hpend : ∀ p, s.pending_total = some p → p ≤ cap.max_pending),
      s.pending_total.any (fun p => decide (cap.max_pending < p)) = false := by
    intro hpend
    rcases hopt : s.pending_total with _ | p
    · rfl
    · simpa [Option.any] using not_lt.mpr (hpend p hopt)
  have hlat2 : ∀ (hlat : ∀ q, s.p99_cmd_ms = some q → q ≤ (cap.max_p99_cmd_ms : ℚ)),
      s.p99_cmd_ms.any (fun q => decide ((cap.max_p99_cmd_ms : ℚ) < q)) = false := by
    intro hlat
    rcases hopt : s.p99_cmd_ms with _ | q
    · rfl
    · simpa [Option.any] using not_lt.mpr (hlat q hopt)
  refine ⟨?_, ?_, ?_, ?_, ?_, ?_, ?_, ?_⟩
  · intro h
    unfold evaluate
    split_ifs with h1 <;> simp_all
  · intro hup pct hpct hgt
    unfold evaluate
    split_ifs with h1 h2 <;> simp_all [Option.any]
  · intro hup hmem p hp hgt
    have h2 := hmem2 hmem
    unfold evaluate
    split_ifs with ha hb hc <;> simp_all [Option.any]
  · intro hup hmem hpend q hq hgt
    have h2 := hmem2 hmem
    have h3 := hpend2 hpend
    unfold evaluate
    split_ifs with ha hb hc hd <;> simp_all [Option.any]
  · intro hup hmem hpend hlat
    have h2 := hmem2 hmem
    have h3 := hpend2 hpend
    have h4 := hlat2 hlat
    unfold evaluate
    split_ifs with ha hb hc hd <;> simp_all
  · intro h
    have hfalse : s.used_memory_pct.any (fun pct => decide ((cap.max_memory_pct : ℚ) < pct)) = false := by
      rw [h]; rfl
    unfold evaluate
    rw [hfalse]
    split_ifs <;> simp_all [HealthStatus.unhealthy, HealthStatus.healthy]
  · intro h
    have hfalse : s.pending_total.any (fun p => decide (cap.max_pending < p)) = false := by
      rw [h]; rfl
    unfold evaluate
    rw [hfalse]
    split_ifs <;> simp_all [HealthStatus.unhealthy, HealthStatus.healthy]
  · intro h
    have hfalse : s.p99_cmd_ms.any (fun q => decide ((cap.max_p99_cmd_ms : ℚ) < q)) = false := by
      rw [h]; rfl
    unfold evaluate
    rw [hfalse]
    split_ifs <;> simp_all [HealthStatus.unhealthy, HealthStatus.healthy]

/-- Witness for C8 at the down snapshot of the evaluator tests. -/
theorem evaluate_priority_first_match_witness :
    evaluate capFix snapDownFix = .unhealthy .down snapDownFix :=
  (evaluate_priority_first_match capFix snapDownFix).1 rfl

/-- C2: RedisGate.apply_health — a healthy status re-enables publishing
and new-symbol assignment; a non-ok status with reason Down, Latency,
Manual or no reason disables publishing (and assignment); a non-ok status
with reason MaxMemory, MaxPending or Saturated keeps the enabled flag
untouched while stopping new-symbol assignment; and concretely, the
pending 300000 over threshold 200000 snapshot under StopAssigningNew
gives can_publish true with can_assign_new_symbol false, both true again
after a healthy snapshot (spec scenario S5). -/
theorem apply_health_gate (cfg : FailoverConfig) (s : GateState) (st : HealthStatus) :
    (st.ok = true →
      canPublish (applyHealth cfg s st) = true ∧
        canAssignNewSymbol (applyHealth cfg s st) = true) ∧
    (st.ok = false →
      (st.reason = some .down ∨ st.reason = some .latency ∨
        st.reason = some .manual ∨ st.reason = none) →
      canPublish (applyHealth cfg s st) = false ∧
        canAssignNewSymbol (applyHealth cfg s st) = false) ∧
    (st.ok = false →
      (st.reason = some .maxMemory ∨ st.reason = some .maxPending ∨
        st.reason = some .saturated) →
      (applyHealth cfg s st).enabled = s.enabled ∧
        canAssignNewSymbol (applyHealth cfg s st) = false) ∧
    (canPublish (applyHealth gateCfgFix GateState.new (evaluate capFix snapSatFix)) = true ∧
      canAssignNewSymbol (applyHealth gateCfgFix GateState.new (evaluate capFix snapSatFix)) = false ∧
      canPublish
        (applyHealth gateCfgFix
          (applyHealth gateCfgFix GateState.new (evaluate capFix snapSatFix))
          (evaluate capFix snapHealthyFix)) = true ∧
      canAssignNewSymbol
        (applyHealth gateCfgFix
          (applyHealth gateCfgFix GateState.new (evaluate capFix snapSatFix))
          (evaluate capFix snapHealthyFix)) = true) := by
  refine ⟨?_, ?_, ?_, ?_, ?_, ?_, ?_⟩
  · intro hok
    simp [applyHealth, hok, canPublish, canAssignNewSymbol]
  · intro hok hr
    rcases hr with h | h | h | h <;>
      · simp only [applyHealth, hok]
        rw [h]
        cases cfg.on_down <;>
          simp [setDisabled, canPublish, canAssignNewSymbol]
  · intro hok hr
    rcases hr with h | h | h <;>
      · simp only [applyHealth, hok]
        rw [h]
        cases hsat : cfg.on_saturated <;>
          simp [applySaturation, hsat, canPublish, canAssignNewSymbol]
  · rfl
  · rfl
  · rfl
  · rfl

/-- Witness for C2: the Down status disables publishing from the enabled
start state. -/
theorem apply_health_gate_witness :
    canPublish
        (applyHealth gateCfgFix GateState.new (.unhealthy .down snapDownFix)) = false ∧
      canAssignNewSymbol
        (applyHealth gateCfgFix GateState.new (.unhealthy .down snapDownFix)) = false ∧
      canPublish
        (applyHealth gateCfgFix GateState.new (.healthy snapHealthyFix)) = true :=
  ⟨((apply_health_gate gateCfgFix GateState.new (.unhealthy .down snapDownFix)).2.1
      rfl (Or.inl rfl)).1,
    ((apply_health_gate gateCfgFix GateState.new (.unhealthy .down snapDownFix)).2.1
      rfl (Or.inl rfl)).2,
    ((apply_health_gate gateCfgFix GateState.new (.healthy snapHealthyFix)).1 rfl).1⟩

/-- C3 counterexample: the claim says a transport connect error is
recovered by the reconnect loop and run_stream does not return it.  On
the code the connect_async error propagates by the question-mark operator
(src/ingest/ws/ws_client.rs lines 95-97): with the first connection
attempt failing and every later attempt a clean session, run_stream
returns the connect error instead of looping. -/
theorem connect_error_escapes_counterexample :
    runStream envConnFailFix none 10 = some (.error "connect refused") := rfl

/-- C3 amended: a connect error (and a fatal in-session error) propagates
out of run_stream; only sessions ending in a disconnect (read error,
stream end, close frame, connection timeout) are recovered by the
reconnect loop, which then runs until cancelled or stopped by the test
hook. -/
theorem connect_loop_recovery (env : Nat → AttemptOutcome) :
    (∀ fuel k e, env k = .connectErr e →
      connectLoop env none (fuel + 1) k = some (.error e)) ∧
    (∀ fuel k e, env k = .session (.fatal e) →
      connectLoop env none (fuel + 1) k = some (.error e)) ∧
    (∀ fuel k, (∀ n, ∃ r, env n = .session (.disconnect r)) →
      connectLoop env none fuel k = none) := by
  refine ⟨?_, ?_, ?_⟩
  · intro fuel k e h
    simp [connectLoop, h]
  · intro fuel k e h
    simp [connectLoop, h]
  · intro fuel
    induction fuel with
    | zero => intro k _; rfl
    | succ n ih =>
      intro k hdis
      obtain ⟨r, hr⟩ := hdis k
      simp only [connectLoop, hr]
      exact ih (k + 1) hdis

/-- Witness for the amended C3: a first-attempt connect error is
returned, and a loop fed only disconnecting sessions is still running
after any amount of fuel. -/
theorem connect_loop_recovery_witness :
    connectLoop envConnFailFix none 6 0 = some (.error "connect refused") ∧
      connectLoop envCleanFix none 7 0 = none :=
  ⟨(connect_loop_recovery envConnFailFix).1 5 0 "connect refused" rfl,
    (connect_loop_recovery envCleanFix).2.2 7 0 (fun _ => ⟨none, rfl⟩)⟩

/-- Scanning the chunks finds no store error when every insert in range
succeeds. -/
theorem firstErr_eq_none_of {α ε : Type} (insert : Nat → Option ε) :
    ∀ (cs : List (List α)) (n : Nat),
      (∀ i, i < cs.length → insert (n + i) = none) → firstErr insert n cs = none := by
  intro cs
  induction cs with
  | nil => intro n _; rfl
  | cons c cs ih =>
    intro n h
    have h0 : insert n = none := by simpa using h 0 (by simp)
    have hrest : ∀ i, i < cs.length → insert (n + 1 + i) = none := by
      intro i hi
      have := h (i + 1) (by simpa using Nat.succ_lt_succ hi)
      simpa [Nat.add_assoc, Nat.add_comm 1 i] using this
    simp [firstErr, h0, ih (n + 1) hrest]

/-- Any error the chunk scan reports came from an insert in range. -/
theorem firstErr_some_ex {α ε : Type} (insert : Nat → Option ε) :
    ∀ (cs : List (List α)) (n : Nat) (e : ε),
      firstErr insert n cs = some e → ∃ i, i < cs.length ∧ insert (n + i) = some e := by
  intro cs
  induction cs with
  | nil => intro n e h; simp [firstErr] at h
  | cons c cs ih =>
    intro n e h
    rcases h0 : insert n with _ | e0
    · rw [firstErr, h0] at h
      obtain ⟨i, hi, hins⟩ := ih (n + 1) e h
      exact ⟨i + 1, by simpa using Nat.succ_lt_succ hi,
        by simpa [Nat.add_assoc, Nat.add_comm 1 i] using hins⟩
    · rw [firstErr, h0] at h
      cases h
      exact ⟨0, by simp, by simpa using h0⟩

/-- If some insert in range fails, the chunk scan reports an error. -/
theorem firstErr_ex_some {α ε : Type} (insert : Nat → Option ε) :
    ∀ (cs : List (List α)) (n : Nat),
      (∃ i, i < cs.length ∧ insert (n + i) ≠ none) →
        ∃ e, firstErr insert n cs = some e := by
  intro cs
  induction cs with
  | nil => rintro n ⟨i, hi, _⟩; simp at hi
  | cons c cs ih =>
    rintro n ⟨i, hi, hne⟩
    rcases h0 : insert n with _ | e0
    · have hi1 : i ≠ 0 := by
        rintro rfl
        exact hne (by simpa using h0)
      obtain ⟨j, rfl⟩ := Nat.exists_eq_succ_of_ne_zero hi1
      simp only [List.length_cons] at hi
      obtain ⟨e, he⟩ := ih (n + 1)
        ⟨j, by omega, by simpa [Nat.add_assoc, Nat.add_comm 1 j] using hne⟩
      exact ⟨e, by simp [firstErr, h0, he]⟩
    · exact ⟨e0, by simp [firstErr, h0]⟩

/-- C6: write_batch on an empty batch returns Ok without touching the
metrics or the batch, however much time has elapsed since enqueued_at; in
particular the batch.rows[0] table-name read (the panic modelled as none)
is never reached. -/
theorem write_batch_empty {α ε : Type} (insert : Nat → Option ε) (now : Nat)
    (m : DbMetrics) (b : Batch α) (h : b.rows = []) :
    writeBatch insert now m b = some (.ok (), m, b) := by
  have hsf : b.should_flush now = false := by
    simp [Batch.should_flush, h]
  simp [writeBatch, hsf]

/-- Witness for C6: the empty fixture batch, 500ms after enqueue with a
100ms flush interval, still returns Ok untouched. -/
theorem write_batch_empty_witness :
    writeBatch (fun _ => (none : Option String)) 500 mFix bEmptyFix =
      some (.ok (), mFix, bEmptyFix) :=
  write_batch_empty (fun _ => none) 500 mFix bEmptyFix rfl

/-- C1: on a batch that flushes, write_batch clears the rows and resets
enqueued_at to the call time when every chunk insert succeeds (also
bumping batches_written and rows_written), and on any chunk insert
failure propagates a store error that some chunk insert produced,
increments failed_batch by one and returns the batch exactly as it was,
rows included. -/
theorem write_batch_flush {α ε : Type} (insert : Nat → Option ε) (now : Nat)
    (m : DbMetrics) (b : Batch α) (hf : b.should_flush now = true) :
    ((∀ i, i < (chunksOf b.chunk_rows b.rows).length → insert i = none) →
      writeBatch insert now m b =
        some (.ok (),
          { m with
            batches_written := m.batches_written + 1,
            rows_written :=
              m.rows_written + ((chunksOf b.chunk_rows b.rows).map List.length).sum },
          { b with rows := [], enqueued_at := now })) ∧
    ((∃ i, i < (chunksOf b.chunk_rows b.rows).length ∧ insert i ≠ none) →
      ∃ e, writeBatch insert now m b =
          some (.error e, { m with failed_batch := m.failed_batch + 1 }, b) ∧
        ∃ i, i < (chunksOf b.chunk_rows b.rows).length ∧ insert i = some e) := by
  obtain ⟨rows, enq, fr, fiv, cr⟩ := b
  cases rows with
  | nil => simp [Batch.should_flush] at hf
  | cons r rs =>
    constructor
    · intro h
      have hnone : firstErr insert 0 (chunksOf cr (r :: rs)) = none :=
        firstErr_eq_none_of insert _ 0 (by simpa using h)
      simp [writeBatch, hf, hnone]
    · rintro ⟨i, hi, hne⟩
      obtain ⟨e, he⟩ := firstErr_ex_some insert (chunksOf cr (r :: rs)) 0
        ⟨i, hi, by simpa using hne⟩
      obtain ⟨j, hj, hj2⟩ := firstErr_some_ex insert _ 0 e he
      exact ⟨e, by simp [writeBatch, hf, he], j, hj, by simpa using hj2⟩

/-- Witness for C1 at the three-row fixture batch: an all-success store
clears the batch; a first-chunk failure keeps it and bumps
failed_batch. -/
theorem write_batch_flush_witness :
    (writeBatch insOkFix 1 mFix bFix =
      some (.ok (),
        { mFix with
          batches_written := mFix.batches_written + 1,
          rows_written :=
            mFix.rows_written + ((chunksOf bFix.chunk_rows bFix.rows).map List.length).sum },
        { bFix with rows := [], enqueued_at := 1 })) ∧
    (∃ e, writeBatch insFailFix 1 mFix bFix =
        some (.error e, { mFix with failed_batch := mFix.failed_batch + 1 }, bFix) ∧
      ∃ i, i < (chunksOf bFix.chunk_rows bFix.rows).length ∧ insFailFix i = some e) :=
  ⟨(write_batch_flush insOkFix 1 mFix bFix rfl).1 (fun _ _ => rfl),
    (write_batch_flush insFailFix 1 mFix bFix rfl).2 ⟨0, by decide, by decide⟩⟩

/-- C5: write_batch_with_retry retries the whole flush after a failure,
keeping the rows in the batch across attempts; with the first store call
failing, the second succeeding and retries = 1, the caller observes Ok
and the counters move by retried_batch + 1, failed_batch + 1 and
batches_written + 1 (spec scenario S4).  The fixed-backoff sleep between
attempts is a real-time effect with no further state. -/
theorem write_batch_retry_scenario {α ε : Type} (e : ε) (insert : Nat → Nat → Option ε)
    (now : Nat) (m : DbMetrics) (b : Batch α)
    (hf : b.should_flush now = true)
    (h0 : insert 0 0 = some e)
    (h1 : ∀ i, insert 1 i = none) :
    writeBatchWithRetry insert now 1 m b =
      some (.ok (),
        { m with
          failed_batch := m.failed_batch + 1,
          batches_written := m.batches_written + 1,
          rows_written :=
            m.rows_written + ((chunksOf b.chunk_rows b.rows).map List.length).sum,
          retried_batch := m.retried_batch + 1 },
        { b with rows := [], enqueued_at := now }) := by
  obtain ⟨rows, enq, fr, fiv, cr⟩ := b
  cases rows with
  | nil => simp [Batch.should_flush] at hf
  | cons r rs =>
    have hfail : firstErr (insert 0) 0
        (chunksOf cr (r :: rs)) = some e := by
      simp [chunksOf, chunksGo, firstErr, h0]
    have hwb1 : writeBatch (insert 0) now m
        ⟨r :: rs, enq, fr, fiv, cr⟩ =
        some (.error e, { m with failed_batch := m.failed_batch + 1 },
          ⟨r :: rs, enq, fr, fiv, cr⟩) := by
      simp [writeBatch, hf, hfail]
    have hwb2 := (write_batch_flush (insert 1) now
      { m with failed_batch := m.failed_batch + 1,
               retried_batch := m.retried_batch + 1 }
      ⟨r :: rs, enq, fr, fiv, cr⟩ hf).1 (fun i _ => h1 i)
    rw [writeBatchWithRetry, retryGo, hwb1]
    dsimp only
    rw [retryGo, hwb2]

/-- Witness for C5 at the three-row fixture batch and the scenario S4
store oracle. -/
theorem write_batch_retry_scenario_witness :
    writeBatchWithRetry insRetryFix 1 1 mFix bFix =
      some (.ok (),
        { mFix with
          failed_batch := mFix.failed_batch + 1,
          batches_written := mFix.batches_written + 1,
          rows_written :=
            mFix.rows_written + ((chunksOf bFix.chunk_rows bFix.rows).map List.length).sum,
          retried_batch := mFix.retried_batch + 1 },
        { bFix with rows := [], enqueued_at := 1 }) :=
  write_batch_retry_scenario "transient" insRetryFix 1 mFix bFix rfl rfl (fun _ => rfl)

/-- Unfolding of the sort comparator into its lexicographic reading. -/
theorem paramLe_iff (a b : StartStreamParams) :
    ParamOrder a b ↔
      (a.exchange < b.exchange ∨
        (a.exchange = b.exchange ∧
          (a.transport < b.transport ∨
            (a.transport = b.transport ∧
              (a.kind < b.kind ∨
                (a.kind = b.kind ∧ a.symbol ≤ b.symbol)))))) := by
  unfold ParamOrder paramLe
  split_ifs with h1 h2 h3 <;> simp_all

/-- Transitivity of the sort comparator. -/
theorem paramOrder_trans :
    ∀ a b c, ParamOrder a b → ParamOrder b c → ParamOrder a c := by
  intro a b c hab hbc
  rw [paramLe_iff] at hab hbc ⊢
  rcases hab with h1 | ⟨e1, hab⟩
  · rcases hbc with h2 | ⟨e2, _⟩
    · exact Or.inl (h1.trans h2)
    · exact Or.inl (e2 ▸ h1)
  · rcases hbc with h2 | ⟨e2, hbc⟩
    · exact Or.inl (e1 ▸ h2)
    · refine Or.inr ⟨e1.trans e2, ?_⟩
      rcases hab with h1 | ⟨t1, hab⟩
      · rcases hbc with h2 | ⟨t2, _⟩
        · exact Or.inl (h1.trans h2)
        · exact Or.inl (t2 ▸ h1)
      · rcases hbc with h2 | ⟨t2, hbc⟩
        · exact Or.inl (t1 ▸ h2)
        · refine Or.inr ⟨t1.trans t2, ?_⟩
          rcases hab with h1 | ⟨k1, hab⟩
          · rcases hbc with h2 | ⟨k2, _⟩
            · exact Or.inl (h1.trans h2)
            · exact Or.inl (k2 ▸ h1)
          · rcases hbc with h2 | ⟨k2, hbc⟩
            · exact Or.inl (k1 ▸ h2)
            · exact Or.inr ⟨k1.trans k2, le_trans hab hbc⟩

/-- Totality of the sort comparator. -/
theorem paramOrder_total :
    ∀ a b, ParamOrder a b ∨ ParamOrder b a := by
  intro a b
  rw [paramLe_iff, paramLe_iff]
  rcases Nat.lt_trichotomy a.exchange b.exchange with h | h | h
  · exact Or.inl (Or.inl h)
  · rcases Nat.lt_trichotomy a.transport b.transport with h2 | h2 | h2
    · exact Or.inl (Or.inr ⟨h, Or.inl h2⟩)
    · rcases Nat.lt_trichotomy a.kind b.kind with h3 | h3 | h3
      · exact Or.inl (Or.inr ⟨h, Or.inr ⟨h2, Or.inl h3⟩⟩)
      · rcases le_total a.symbol b.symbol with h4 | h4
        · exact Or.inl (Or.inr ⟨h, Or.inr ⟨h2, Or.inr ⟨h3, h4⟩⟩⟩)
        · exact Or.inr (Or.inr ⟨h.symm, Or.inr ⟨h2.symm, Or.inr ⟨h3.symm, h4⟩⟩⟩)
      · exact Or.inr (Or.inr ⟨h.symm, Or.inr ⟨h2.symm, Or.inl h3⟩⟩)
    · exact Or.inr (Or.inr ⟨h.symm, Or.inl h2⟩)
  · exact Or.inr (Or.inl h)

/-- Everything dedupKeepFirst keeps was in the input. -/
theorem dedupKeepFirst_subset :
    ∀ (l : List RegRow) (r : RegRow), r ∈ dedupKeepFirst l → r ∈ l := by
  intro l
  induction l using dedupKeepFirst.induct with
  | case1 =>
    intro r h
    rw [dedupKeepFirst] at h
    exact h
  | case2 x xs ih =>
    intro r h
    rw [dedupKeepFirst] at h
    rcases List.mem_cons.mp h with h2 | h2
    · exact h2 ▸ List.mem_cons_self _ _
    · exact List.mem_cons_of_mem _ (List.mem_of_mem_filter (ih r h2))

/-- The stream ids dedupKeepFirst keeps are pairwise distinct. -/
theorem dedupKeepFirst_ids_nodup :
    ∀ l : List RegRow, ((dedupKeepFirst l).map RegRow.stream_id).Nodup := by
  intro l
  induction l using dedupKeepFirst.induct with
  | case1 => simp [dedupKeepFirst]
  | case2 x xs ih =>
    rw [dedupKeepFirst]
    refine List.Nodup.cons ?_ ih
    intro hmem
    obtain ⟨r, hr, hid⟩ := List.mem_map.mp hmem
    have hr2 := dedupKeepFirst_subset _ r hr
    have := List.of_mem_filter hr2
    simp only [decide_eq_true_eq] at this
    exact this hid

/-- The seen-set row loop splits over list append. -/
theorem selectGo_append (xs : List RegRow) :
    ∀ (seen : List String) (ys : List RegRow),
      selectGo seen (xs ++ ys) =
        ((selectGo seen xs).1 ++ (selectGo (selectGo seen xs).2 ys).1,
          (selectGo (selectGo seen xs).2 ys).2) := by
  induction xs with
  | nil => intro seen ys; simp [selectGo]
  | cons x xs ih =>
    intro seen ys
    by_cases h : x.stream_id ∈ seen <;>
      simp [selectGo, h, ih]

/-- The shard loop with one shared seen set equals the row loop over the
concatenation of the shards. -/
theorem selectShardsGo_join :
    ∀ (shards : List (List RegRow)) (seen : List String),
      selectShardsGo seen shards = (selectGo seen shards.flatten).1 := by
  intro shards
  induction shards with
  | nil => intro seen; simp [selectShardsGo, selectGo]
  | cons sh shs ih =>
    intro seen
    simp [selectShardsGo, List.flatten, selectGo_append, ih]

/-- The seen-set loop computes keep-first deduplication of the rows whose
ids are not yet seen. -/
theorem selectGo_fst_eq (l : List RegRow) :
    ∀ seen : List String,
      (selectGo seen l).1 =
        dedupKeepFirst (l.filter (fun r => !decide (r.stream_id ∈ seen))) := by
  induction l with
  | nil => intro seen; simp [selectGo, dedupKeepFirst]
  | cons r rs ih =>
    intro seen
    by_cases h : r.stream_id ∈ seen
    · have hcons : (r :: rs).filter (fun x => !decide (x.stream_id ∈ seen)) =
          rs.filter (fun x => !decide (x.stream_id ∈ seen)) := by
        simp [List.filter_cons, h]
      calc (selectGo seen (r :: rs)).1 = (selectGo seen rs).1 := by
            rw [selectGo, if_pos h]
        _ = dedupKeepFirst (rs.filter (fun x => !decide (x.stream_id ∈ seen))) := ih seen
        _ = dedupKeepFirst ((r :: rs).filter (fun x => !decide (x.stream_id ∈ seen))) := by
            rw [hcons]
    · have hfilter :
          rs.filter (fun x => !decide (x.stream_id ∈ r.stream_id :: seen)) =
            (rs.filter (fun x => !decide (x.stream_id ∈ seen))).filter
              (fun x => decide (x.stream_id ≠ r.stream_id)) := by
        rw [List.filter_filter]
        refine List.filter_congr ?_
        intro x _
        by_cases hx1 : x.stream_id = r.stream_id <;>
          by_cases hx2 : x.stream_id ∈ seen <;>
            simp [hx1, hx2]
      simp only [selectGo, if_neg h]
      rw [ih (r.stream_id :: seen), hfilter]
      have : (r :: rs).filter (fun x => !decide (x.stream_id ∈ seen)) =
          r :: rs.filter (fun x => !decide (x.stream_id ∈ seen)) := by
        simp [List.filter_cons, h]
      rw [this, dedupKeepFirst]

/-- C7: load_enabled_streams_from_registry keeps each stream_id at most
once across shards, keeps the first encountered row of a duplicated id
(the selection equals keep-first deduplication of the shard-order
concatenation), and returns those rows, converted to start parameters,
sorted by (exchange, transport, kind, symbol). -/
theorem load_enabled_dedup_sorted (shards : List (List RegRow)) :
    selectRows shards = dedupKeepFirst shards.flatten ∧
    ((selectRows shards).map RegRow.stream_id).Nodup ∧
    List.Sorted ParamOrder (loadEnabled shards) ∧
    (loadEnabled shards).Perm ((selectRows shards).map RegRow.toParams) := by
  have h1 : selectRows shards = dedupKeepFirst shards.flatten := by
    rw [selectRows, selectShardsGo_join, selectGo_fst_eq]
    congr 1
    have hall : ∀ x ∈ shards.flatten,
        (!decide (RegRow.stream_id x ∈ ([] : List String))) = (fun (_ : RegRow) => true) x := by
      simp
    rw [List.filter_congr hall, List.filter_true]
  refine ⟨h1, ?_, ?_, ?_⟩
  · rw [h1]; exact dedupKeepFirst_ids_nodup _
  · exact @List.sorted_insertionSort _ ParamOrder _
      ⟨paramOrder_total⟩ ⟨paramOrder_trans⟩ _
  · exact List.perm_insertionSort _ _

/-- C10: p99_ms returns None exactly when no samples are held (so at
construction and after clear), and with n ≥ 1 samples it returns the
element at ascending rank min(max(ceil(0.99 n), 1), n) of the stored
samples — an actually stored sample — in particular the sample itself
when n = 1.  The hypothesis is the tracker invariant len ≤ buffer
length, maintained by new, observe_ms and clear. -/
theorem p99_rank (s : LatInner) (hwf : s.len ≤ s.buf.length) :
    (p99Ms s = none ↔ s.len = 0) ∧
    (∀ w, p99Ms (latencyNew w) = none) ∧
    (p99Ms (latencyClear s) = none) ∧
    (0 < s.len →
      (p99Ms s =
        (List.insertionSort (· ≤ ·) (s.buf.take s.len))[
          min (max (⌈(99 * (s.len : ℚ)) / 100⌉₊) 1) s.len - 1]? ∧
        ∀ v, p99Ms s = some v → v ∈ s.buf.take s.len)) ∧
    (∀ v, s.len = 1 → s.buf.take 1 = [v] → p99Ms s = some v) := by
  have hmain : 0 < s.len →
      (p99Ms s =
        (List.insertionSort (· ≤ ·) (s.buf.take s.len))[
          min (max (⌈(99 * (s.len : ℚ)) / 100⌉₊) 1) s.len - 1]? ∧
        ∀ v, p99Ms s = some v → v ∈ s.buf.take s.len) := by
    intro hpos
    have hne : s.len ≠ 0 := Nat.pos_iff_ne_zero.mp hpos
    have hsnaplen :
        (List.insertionSort (· ≤ ·) (s.buf.take s.len)).length = s.len := by
      rw [List.length_insertionSort, List.length_take]
      omega
    have hq : (0 : ℚ) < 99 * (s.len : ℚ) / 100 := by
      have hx : (0 : ℚ) < (s.len : ℚ) := by exact_mod_cast hpos
      positivity
    have hceil_pos : 0 < ⌈99 * (s.len : ℚ) / 100⌉ := Int.ceil_pos.mpr hq
    have hceq : ⌈99 * (s.len : ℚ) / 100⌉ = (⌈99 * (s.len : ℚ) / 100⌉₊ : ℤ) := by
      rw [← Int.ceil_toNat, Int.toNat_of_nonneg (le_of_lt hceil_pos)]
    set c := ⌈99 * (s.len : ℚ) / 100⌉₊ with hc
    have hcpos : 1 ≤ c := by omega
    have heq : p99Ms s =
        some ((List.insertionSort (· ≤ ·) (s.buf.take s.len)).getD
          (min (c - 1) (s.len - 1)) 0) := by
      rw [p99Ms, if_neg hne]
      simp only [hsnaplen, hceq]
      have h0 : ¬ ((c : ℤ) - 1 < 0) := by omega
      rw [if_neg h0]
      have h1 : ((c : ℤ) - 1).toNat = c - 1 := by omega
      rw [h1]
    have hidx : min (c - 1) (s.len - 1) <
        (List.insertionSort (· ≤ ·) (s.buf.take s.len)).length := by
      omega
    have hgd : (List.insertionSort (· ≤ ·) (s.buf.take s.len)).getD
        (min (c - 1) (s.len - 1)) 0 =
        (List.insertionSort (· ≤ ·) (s.buf.take s.len))[min (c - 1) (s.len - 1)] := by
      rw [List.getD_eq_getElem?_getD, List.getElem?_eq_getElem hidx]
      rfl
    constructor
    · have hieq : min (max c 1) s.len - 1 = min (c - 1) (s.len - 1) := by omega
      rw [heq, hgd, hieq, List.getElem?_eq_getElem hidx]
    · intro v hv
      rw [heq, hgd] at hv
      have hv2 : v = (List.insertionSort (· ≤ ·) (s.buf.take s.len))[
          min (c - 1) (s.len - 1)] := by
        exact (Option.some.injEq _ _ ▸ hv).symm
      rw [hv2]
      exact (List.perm_insertionSort (· ≤ ·) (s.buf.take s.len)).mem_iff.mp
        (List.getElem_mem hidx)
  refine ⟨?_, ?_, ?_, hmain, ?_⟩
  · constructor
    · intro h
      by_contra hne
      rw [p99Ms, if_neg hne] at h
      exact Option.some_ne_none _ h
    · intro h
      rw [p99Ms, if_pos h]
  · intro w; rfl
  · rfl
  · intro v h1 htake
    obtain ⟨heq, _⟩ := hmain (by omega)
    rw [heq, h1, htake]
    have hc1 : (⌈(99 * ((1 : Nat) : ℚ)) / 100⌉₊) = 1 := by
      rw [Nat.ceil_eq_iff] <;> norm_num
    simp [hc1, List.insertionSort, List.orderedInsert]

/-- Witness for C10 at the fixture tracker holding samples 5, 3, 9: the
rank formula picks the largest stored sample. -/
theorem p99_rank_witness :
    p99Ms latFix = some 9 ∧ (9 : ℚ) ∈ latFix.buf.take latFix.len := by
  have h4 := (p99_rank latFix (by decide)).2.2.2.1 (by decide)
  have hlen : latFix.len = 3 := rfl
  have hc : (⌈(99 * ((3 : Nat) : ℚ)) / 100⌉₊) = 3 := by
    rw [Nat.ceil_eq_iff] <;> norm_num
  have hp : p99Ms latFix = some 9 := by
    rw [h4.1, hlen, hc]
    decide
  exact ⟨hp, h4.2 9 hp⟩

/-- Finding nothing means the character is absent. -/
theorem findAt_eq_none (c : Char) :
    ∀ l : Str, findAt c l = none ↔ c ∉ l := by
  intro l
  induction l with
  | nil => simp [findAt]
  | cons x xs ih =>
    by_cases h : x = c
    · simp [findAt, h]
    · rw [findAt, if_neg h]
      simp only [Option.map_eq_none', ih, List.mem_cons, not_or]
      constructor
      · intro hnotin
        exact ⟨fun h2 => h h2.symm, hnotin⟩
      · intro h2
        exact h2.2

/-- A found index decomposes the list around the first occurrence. -/
theorem findAt_some (c : Char) :
    ∀ (l : Str) (j : Nat), findAt c l = some j →
      ∃ pre post, l = pre ++ c :: post ∧ pre.length = j ∧ c ∉ pre := by
  intro l
  induction l with
  | nil => intro j h; simp [findAt] at h
  | cons x xs ih =>
    intro j h
    by_cases hx : x = c
    · rw [findAt, if_pos hx] at h
      cases h
      exact ⟨[], xs, by simp [hx], rfl, by simp⟩
    · rw [findAt, if_neg hx] at h
      obtain ⟨j2, hj2, rfl⟩ := Option.map_eq_some'.mp h
      obtain ⟨pre, post, rfl, hlen, hpre⟩ := ih j2 hj2
      refine ⟨x :: pre, post, rfl, by simp [hlen], ?_⟩
      simp only [List.mem_cons, not_or]
      exact ⟨fun h2 => hx h2.symm, hpre⟩

/-- The first occurrence after a clean prefix is at the prefix length. -/
theorem findAt_append (c : Char) :
    ∀ (pre post : Str), c ∉ pre →
      findAt c (pre ++ c :: post) = some pre.length := by
  intro pre
  induction pre with
  | nil => intro post _; simp [findAt]
  | cons x xs ih =>
    intro post h
    simp only [List.mem_cons, not_or] at h
    have hx : x ≠ c := fun h2 => h.1 h2.symm
    simp [findAt, hx, ih post h.2]

/-- Model of a failed find from a position. -/
theorem findFrom_none (c : Char) (l : Str) (i : Nat) :
    findFrom c l i = none ↔ c ∉ l.drop i := by
  rw [findFrom, Option.map_eq_none', findAt_eq_none]

/-- Model of a successful find from a position: the absolute index is at
or after the start, and the dropped part splits at it with a clean
prefix. -/
theorem findFrom_some (c : Char) (l : Str) (i s : Nat) :
    findFrom c l i = some s →
      i ≤ s ∧ ∃ pre post, l.drop i = pre ++ c :: post ∧
        i + pre.length = s ∧ c ∉ pre := by
  intro h
  obtain ⟨j, hj, rfl⟩ := Option.map_eq_some'.mp h
  obtain ⟨pre, post, hsplit, hlen, hpre⟩ := findAt_some c _ j hj
  exact ⟨Nat.le_add_right _ _, pre, post, hsplit, by omega, hpre⟩

/-- Finding the bracket of a decomposed string from position zero. -/
theorem findFrom_zero_of (c : Char) (p s : Str) (h : c ∉ p) :
    findFrom c (p ++ c :: s) 0 = some p.length := by
  rw [findFrom, List.drop_zero, findAt_append c p s h]
  simp

/-- No closing bracket at or after an opening bracket whose tail has
none. -/
theorem findFrom_gt_none (p s : Str) (h : ('>' : Char) ∉ s) :
    findFrom '>' (p ++ '<' :: s) p.length = none := by
  rw [findFrom, Option.map_eq_none', List.drop_left, findAt_eq_none]
  simp only [List.mem_cons, not_or]
  exact ⟨by decide, h⟩

/-- The inserted key is in the insertion result. -/
theorem mem_insertSorted_self (k : Str) :
    ∀ l : List Str, k ∈ insertSorted k l := by
  intro l
  induction l with
  | nil => simp [insertSorted]
  | cons x xs ih =>
    rw [insertSorted]
    split_ifs with h1 h2
    · exact List.mem_cons_self _ _
    · exact h2 ▸ List.mem_cons_self _ _
    · exact List.mem_cons_of_mem _ ih

/-- Members of the insertion result are the key or old members. -/
theorem mem_insertSorted (k x : Str) :
    ∀ l : List Str, x ∈ insertSorted k l → x = k ∨ x ∈ l := by
  intro l
  induction l with
  | nil => intro h; simpa [insertSorted] using h
  | cons y ys ih =>
    intro h
    rw [insertSorted] at h
    split_ifs at h with h1 h2
    · rcases List.mem_cons.mp h with h3 | h3
      · exact Or.inl h3
      · exact Or.inr h3
    · exact Or.inr h
    · rcases List.mem_cons.mp h with h3 | h3
      · exact Or.inr (h3 ▸ List.mem_cons_self _ _)
      · rcases ih h3 with h4 | h4
        · exact Or.inl h4
        · exact Or.inr (List.mem_cons_of_mem _ h4)

/-- Old members stay in the insertion result. -/
theorem subset_insertSorted (k x : Str) :
    ∀ l : List Str, x ∈ l → x ∈ insertSorted k l := by
  intro l
  induction l with
  | nil => intro h; cases h
  | cons y ys ih =>
    intro h
    rw [insertSorted]
    split_ifs with h1 h2
    · exact List.mem_cons_of_mem _ h
    · exact h
    · rcases List.mem_cons.mp h with h3 | h3
      · exact h3 ▸ List.mem_cons_self _ _
      · exact List.mem_cons_of_mem _ (ih h3)

/-- Strict string order is irreflexive. -/
theorem strLt_irrefl : ∀ a : Str, strLt a a = false := by
  intro a
  induction a with
  | nil => rfl
  | cons x xs ih => simp [strLt, lt_irrefl, ih]

/-- Strict string order is transitive. -/
theorem strLt_trans :
    ∀ a b c : Str, strLt a b = true → strLt b c = true → strLt a c = true := by
  intro a
  induction a with
  | nil =>
    intro b c hab hbc
    cases b with
    | nil => simp [strLt] at hab
    | cons y ys =>
      cases c with
      | nil => simp [strLt] at hbc
      | cons z zs => simp [strLt]
  | cons x xs ih =>
    intro b c hab hbc
    cases b with
    | nil => simp [strLt] at hab
    | cons y ys =>
      cases c with
      | nil => simp [strLt] at hbc
      | cons z zs =>
        rw [strLt] at hab hbc ⊢
        by_cases hxy : x < y
        · by_cases hyz : y < z
          · simp [lt_trans hxy hyz]
          · by_cases hzy : z < y
            · simp [hyz, hzy] at hbc
            · have hyez : y = z := le_antisymm (not_lt.mp hzy) (not_lt.mp hyz)
              subst hyez
              simp [hxy]
        · by_cases hyx : y < x
          · simp [hxy, hyx] at hab
          · have hxey : x = y := le_antisymm (not_lt.mp hyx) (not_lt.mp hxy)
            by_cases hyz : y < z
            · subst hxey
              simp [hyz]
            · by_cases hzy : z < y
              · simp [hyz, hzy] at hbc
              · have hyez : y = z := le_antisymm (not_lt.mp hzy) (not_lt.mp hyz)
                simp only [if_neg hxy, if_neg hyx] at hab
                simp only [if_neg hyz, if_neg hzy] at hbc
                subst hxey
                subst hyez
                simp [lt_irrefl, ih _ _ hab hbc]

/-- Two distinct strings compare strictly one way or the other. -/
theorem strLt_total :
    ∀ a b : Str, strLt a b = false → a ≠ b → strLt b a = true := by
  intro a
  induction a with
  | nil =>
    intro b hab hne
    cases b with
    | nil => exact absurd rfl hne
    | cons y ys => simp [strLt] at hab
  | cons x xs ih =>
    intro b hab hne
    cases b with
    | nil => simp [strLt]
    | cons y ys =>
      rw [strLt] at hab ⊢
      by_cases hxy : x < y
      · simp [hxy] at hab
      · by_cases hyx : y < x
        · simp [hyx]
        · have hxey : x = y := le_antisymm (not_lt.mp hyx) (not_lt.mp hxy)
          simp only [if_neg hxy, if_neg hyx] at hab
          have hne2 : xs ≠ ys := by
            intro h2
            exact hne (by rw [hxey, h2])
          subst hxey
          simp [lt_irrefl, ih ys hab hne2]

/-- Insertion keeps the missing-key set strictly sorted (the BTreeSet
invariant). -/
theorem insertSorted_pairwise (k : Str) :
    ∀ l : List Str, l.Pairwise (fun a b => strLt a b = true) →
      (insertSorted k l).Pairwise (fun a b => strLt a b = true) := by
  intro l
  induction l with
  | nil => intro _; simp [insertSorted]
  | cons x xs ih =>
    intro hp
    obtain ⟨hx, hxs⟩ := List.pairwise_cons.mp hp
    rw [insertSorted]
    split_ifs with h1 h2
    · refine List.pairwise_cons.mpr ⟨?_, hp⟩
      intro b hb
      rcases List.mem_cons.mp hb with h3 | h3
      · exact h3 ▸ h1
      · exact strLt_trans k x b h1 (hx b h3)
    · exact hp
    · refine List.pairwise_cons.mpr ⟨?_, ih hxs⟩
      intro b hb
      rcases mem_insertSorted k b xs hb with h3 | h3
      · have h1f : strLt k x = false := by simpa using h1
        exact h3 ▸ strLt_total k x h1f h2
      · exact hx b h3

/-- The scan only ever grows the missing-key set. -/
theorem renderCore_acc_mono (ctx : Ctx) :
    ∀ (f i : Nat) (out : Str) (acc : List Str) (q : Str) (S : List Str),
      renderCore ctx f i out acc = some (q, S) → ∀ k ∈ acc, k ∈ S := by
  intro f
  induction f with
  | zero =>
    intro i out acc q S h
    simp [renderCore] at h
  | succ n ih =>
    intro i out acc q S h k hk
    rw [renderCore] at h
    rcases h1 : findFrom '<' out i with _ | start
    · simp only [h1, Option.some.injEq, Prod.mk.injEq] at h
      exact h.2 ▸ hk
    · simp only [h1] at h
      rcases h2 : findFrom '>' out start with _ | stop
      · simp only [h2, Option.some.injEq, Prod.mk.injEq] at h
        exact h.2 ▸ hk
      · simp only [h2] at h
        rcases h3 : ctx (strSlice out (start + 1) stop) with _ | val
        · simp only [h3] at h
          exact ih _ _ _ _ _ h k (subset_insertSorted _ k acc hk)
        · simp only [h3] at h
          exact ih _ _ _ _ _ h k hk

/-- Every key in the final missing set is unbound, provided every key in
the starting set is. -/
theorem renderCore_acc_unbound (ctx : Ctx) :
    ∀ (f i : Nat) (out : Str) (acc : List Str) (q : Str) (S : List Str),
      renderCore ctx f i out acc = some (q, S) →
      (∀ k ∈ acc, ctx k = none) → ∀ k ∈ S, ctx k = none := by
  intro f
  induction f with
  | zero =>
    intro i out acc q S h
    simp [renderCore] at h
  | succ n ih =>
    intro i out acc q S h hacc
    rw [renderCore] at h
    rcases h1 : findFrom '<' out i with _ | start
    · simp only [h1, Option.some.injEq, Prod.mk.injEq] at h
      exact h.2 ▸ hacc
    · simp only [h1] at h
      rcases h2 : findFrom '>' out start with _ | stop
      · simp only [h2, Option.some.injEq, Prod.mk.injEq] at h
        exact h.2 ▸ hacc
      · simp only [h2] at h
        rcases h3 : ctx (strSlice out (start + 1) stop) with _ | val
        · simp only [h3] at h
          refine ih _ _ _ _ _ h ?_
          intro k hk
          rcases mem_insertSorted _ k acc hk with h4 | h4
          · exact h4 ▸ h3
          · exact hacc k h4
        · simp only [h3] at h
          exact ih _ _ _ _ _ h hacc

/-- The final missing set stays strictly sorted (duplicate-free). -/
theorem renderCore_acc_pairwise (ctx : Ctx) :
    ∀ (f i : Nat) (out : Str) (acc : List Str) (q : Str) (S : List Str),
      renderCore ctx f i out acc = some (q, S) →
      acc.Pairwise (fun a b => strLt a b = true) →
      S.Pairwise (fun a b => strLt a b = true) := by
  intro f
  induction f with
  | zero =>
    intro i out acc q S h
    simp [renderCore] at h
  | succ n ih =>
    intro i out acc q S h hacc
    rw [renderCore] at h
    rcases h1 : findFrom '<' out i with _ | start
    · simp only [h1, Option.some.injEq, Prod.mk.injEq] at h
      exact h.2 ▸ hacc
    · simp only [h1] at h
      rcases h2 : findFrom '>' out start with _ | stop
      · simp only [h2, Option.some.injEq, Prod.mk.injEq] at h
        exact h.2 ▸ hacc
      · simp only [h2] at h
        rcases h3 : ctx (strSlice out (start + 1) stop) with _ | val
        · simp only [h3] at h
          exact ih _ _ _ _ _ h (insertSorted_pairwise _ acc hacc)
        · simp only [h3] at h
          exact ih _ _ _ _ _ h hacc

/-- Shape of a successfully rendered string: starting a scan with no
missing keys and a bracket-free prefix, a success leaves either no
opening bracket at all, or a first opening bracket with no closing
bracket anywhere after it.  Either way a rescan has nothing left to
substitute. -/
theorem renderCore_ok_shape (ctx : Ctx) :
    ∀ (f i : Nat) (out y : Str),
      renderCore ctx f i out [] = some (y, []) →
      ('<' : Char) ∉ out.take i →
      (('<' : Char) ∉ y ∨
        ∃ p s, y = p ++ '<' :: s ∧ ('<' : Char) ∉ p ∧ ('>' : Char) ∉ s) := by
  intro f
  induction f with
  | zero =>
    intro i out y h _
    simp [renderCore] at h
  | succ n ih =>
    intro i out y h hpre
    rw [renderCore] at h
    rcases h1 : findFrom '<' out i with _ | start
    · simp only [h1, Option.some.injEq, Prod.mk.injEq] at h
      left
      rw [show y = out from h.1.symm]
      have hd : ('<' : Char) ∉ out.drop i := (findFrom_none _ _ _).mp h1
      intro hmem
      rw [← List.take_append_drop i out] at hmem
      rcases List.mem_append.mp hmem with hm | hm
      · exact hpre hm
      · exact hd hm
    · simp only [h1] at h
      obtain ⟨his, pre, post, hsplit, hslen, hpre2⟩ := findFrom_some '<' out i start h1
      have htake : out.take start = out.take i ++ pre := by
        have h4 : out.take (i + pre.length) =
            out.take i ++ (out.drop i).take pre.length := List.take_add out i pre.length
        rw [hslen] at h4
        rw [h4, hsplit, List.take_left]
      have htakeclean : ('<' : Char) ∉ out.take start := by
        rw [htake]
        intro hmem
        rcases List.mem_append.mp hmem with hm | hm
        · exact hpre hm
        · exact hpre2 hm
      have hout : out = out.take start ++ '<' :: post := by
        rw [htake, List.append_assoc]
        conv_lhs => rw [← List.take_append_drop i out]
        rw [hsplit]
      have hstartlen : (out.take start).length = start := by
        have hdl : (out.drop i).length = out.length - i := List.length_drop i out
        rw [hsplit] at hdl
        simp only [List.length_append, List.length_cons] at hdl
        rw [List.length_take]
        omega
      rcases h2 : findFrom '>' out start with _ | stop
      · simp only [h2, Option.some.injEq, Prod.mk.injEq] at h
        right
        have hd : ('>' : Char) ∉ out.drop start := (findFrom_none _ _ _).mp h2
        have hdrop : out.drop start = '<' :: post := by
          have h5 := List.drop_left (out.take start) ('<' :: post)
          rw [hstartlen] at h5
          rw [← hout] at h5
          exact h5
        refine ⟨out.take start, post, ?_, htakeclean, ?_⟩
        · rw [show y = out from h.1.symm]
          exact hout
        · intro hmem
          exact hd (hdrop ▸ List.mem_cons_of_mem _ hmem)
      · simp only [h2] at h
        rcases h3 : ctx (strSlice out (start + 1) stop) with _ | val
        · simp only [h3] at h
          have hmem := renderCore_acc_mono ctx n (stop + 1) out
            (insertSorted (strSlice out (start + 1) stop) []) y [] h
            (strSlice out (start + 1) stop)
            (mem_insertSorted_self _ [])
          cases hmem
        · simp only [h3] at h
          refine ih start (out.take start ++ val ++ out.drop (stop + 1)) y h ?_
          have h6 := List.take_left (out.take start) (val ++ out.drop (stop + 1))
          rw [hstartlen] at h6
          rw [List.append_assoc, h6]
          exact htakeclean

/-- C4 counterexample: the claim says the error lists all missing
placeholder keys present in the input.  With input with placeholders a
then b (witnessed by the substitution-free scan) and a bound to a bare
opening bracket, rendering fails but reports the shifted key rather than
the unbound input key b: the error does not list b. -/
theorem render_missing_keys_counterexample :
    renderString 20 ("<a><b>".data) ctxLtFix = some (.error ["<b".data]) ∧
      scanKeys 20 ("<a><b>".data) 0 = ["a".data, "b".data] ∧
      ctxLtFix ("b".data) = none ∧
      ("b".data) ∉ ["<b".data] :=
  ⟨rfl, rfl, rfl, by decide⟩

/-- C4 amended: rendering "<symbol>@depth" with symbol bound gives
btcusdt@depth and with the empty context fails listing exactly symbol
(spec scenario S6); a failing render reports ALL missing keys its scan
encounters, not only the first ("<a>@<b>" with the empty context lists
both a and b), as a strictly sorted duplicate-free set every member of
which is unbound — but the scan re-scans substituted values, so the
reported keys are the ones it encounters, not always the placeholders
of the original input. -/
theorem render_missing_keys (f : Nat) (input : Str) (ctx : Ctx) (S : List Str) :
    (renderString 20 ("<symbol>@depth".data) ctxSymbolFix =
      some (.ok ("btcusdt@depth".data))) ∧
    (renderString 20 ("<symbol>@depth".data) ctxEmptyFix =
      some (.error ["symbol".data])) ∧
    (renderString 20 ("<a>@<b>".data) ctxEmptyFix =
      some (.error ["a".data, "b".data])) ∧
    (renderString f input ctx = some (.error S) →
      S ≠ [] ∧ S.Pairwise (fun a b => strLt a b = true) ∧ ∀ k ∈ S, ctx k = none) := by
  refine ⟨rfl, rfl, rfl, ?_⟩
  intro h
  rw [renderString] at h
  by_cases hin : '<' ∈ input
  · rw [if_pos hin] at h
    rcases hcore : renderCore ctx f 0 input [] with _ | ⟨out, miss⟩
    · rw [hcore] at h
      exact absurd h (by simp)
    · rw [hcore] at h
      dsimp only at h
      by_cases hmiss : miss = []
      · rw [if_pos hmiss] at h
        exact absurd h (by simp)
      · rw [if_neg hmiss] at h
        have hS : miss = S := by simpa using h
        subst hS
        exact ⟨hmiss,
          renderCore_acc_pairwise ctx f 0 input [] out miss hcore (by simp),
          renderCore_acc_unbound ctx f 0 input [] out miss hcore (by simp)⟩
  · rw [if_neg hin] at h
    exact absurd h (by simp)

/-- Witness for the amended C4 at the two-missing-keys instance. -/
theorem render_missing_keys_witness :
    ["a".data, "b".data] ≠ [] ∧
      (["a".data, "b".data]).Pairwise (fun a b => strLt a b = true) ∧
      ∀ k ∈ ["a".data, "b".data], ctxEmptyFix k = none :=
  (render_missing_keys 20 ("<a>@<b>".data) ctxEmptyFix
    ["a".data, "b".data]).2.2.2 rfl

/-- C9: rendering is idempotent — a successful render, re-rendered under
the same context, returns unchanged (so in particular whenever all
placeholders are bound and the render succeeds); and an input with no
opening bracket is returned unchanged whatever the context. -/
theorem render_idempotent :
    (∀ (f : Nat) (input : Str) (ctx : Ctx) (y : Str) (f2 : Nat),
      renderString f input ctx = some (.ok y) → 1 ≤ f2 →
        renderString f2 y ctx = some (.ok y)) ∧
    (∀ (f : Nat) (input : Str) (ctx : Ctx),
      ('<' : Char) ∉ input → renderString f input ctx = some (.ok input)) := by
  constructor
  · intro f input ctx y f2 h hf2
    rw [renderString] at h
    by_cases hin : '<' ∈ input
    · rw [if_pos hin] at h
      rcases hcore : renderCore ctx f 0 input [] with _ | ⟨out, miss⟩
      · rw [hcore] at h
        exact absurd h (by simp)
      · rw [hcore] at h
        dsimp only at h
        by_cases hmiss : miss = []
        · rw [if_pos hmiss] at h
          have hy : out = y := by simpa using h
          subst hmiss
          subst hy
          have hshape := renderCore_ok_shape ctx f 0 input out hcore (by simp)
          rcases hshape with hA | ⟨p, s2, heq, hp, hs⟩
          · rw [renderString, if_neg hA]
          · obtain ⟨f3, rfl⟩ : ∃ f3, f2 = f3 + 1 := ⟨f2 - 1, by omega⟩
            have hin2 : ('<' : Char) ∈ out := by
              rw [heq]
              exact List.mem_append.mpr (Or.inr (List.mem_cons_self _ _))
            rw [renderString, if_pos hin2]
            have hf1 : findFrom '<' out 0 = some p.length := by
              rw [heq]
              exact findFrom_zero_of '<' p s2 hp
            have hf2g : findFrom '>' out p.length = none := by
              rw [heq]
              exact findFrom_gt_none p s2 hs
            have hstep : renderCore ctx (f3 + 1) 0 out [] = some (out, []) := by
              rw [renderCore]
              simp only [hf1, hf2g]
            rw [hstep]
            simp
        · rw [if_neg hmiss] at h
          exact absurd h (by simp)
    · rw [if_neg hin] at h
      have hy : input = y := by simpa using h
      subst hy
      rw [renderString, if_neg hin]
  · intro f input ctx h
    rw [renderString, if_neg h]

/-- Witness for C9: the S6 render succeeds and its output re-renders to
itself. -/
theorem render_idempotent_witness :
    renderString 5 ("btcusdt@depth".data) ctxSymbolFix =
      some (.ok ("btcusdt@depth".data)) :=
  render_idempotent.1 20 ("<symbol>@depth".data) ctxSymbolFix
    ("btcusdt@depth".data) 5 rfl (by omega)

end MiniFintick
